import Mathlib

/-!
# Verification of Lovefield's relational runtime and service registry

Shallow embedding of `lf.proc.Relation` / `lf.proc.RelationEntry`
(src/lib/proc/relation.js), `lf.Global` (the service registry), and the
insert query builder, together with proofs of the specified properties.

JavaScript objects are modelled as association lists with insert-or-replace
update; `goog.structs.Map` and `goog.structs.Set` likewise.  The process-wide
entry-id counter (`lf.proc.RelationEntry.id_`) is modelled by explicit state
passing: every constructing operation takes the current counter and returns
the next one.
-/

namespace Lovefield

/-- A JavaScript value, as stored in row payloads.  `obj` is a JS object:
an insertion-ordered association list from property name to value.
A missing property reads as `undefined`, modelled by `Option` at lookup. -/
inductive JsVal where
  | null : JsVal
  | num : Int → JsVal
  | str : String → JsVal
  | boolean : Bool → JsVal
  | obj : List (String × JsVal) → JsVal

/-- A JS object: property names with values, in insertion order. -/
abbrev Obj := List (String × JsVal)

/-- `o[k] = v` on a JS object: replaces the value in place when the key is
present, otherwise appends the new property. -/
def objSet : Obj → String → JsVal → Obj
  | [], k, v => [(k, v)]
  | (k', v') :: rest, k, v =>
      if k' = k then (k, v) :: rest else (k', v') :: objSet rest k v

/-- `o[k]` on a JS object: `none` models `undefined`. -/
def objGet : Obj → String → Option JsVal
  | [], _ => none
  | (k', v') :: rest, k => if k' = k then some v' else objGet rest k

/-- The property names of a JS object, in insertion order. -/
def objKeys (o : Obj) : List String := o.map Prod.fst

/-- `lf.Row`: an internal row id plus a payload object.  The row id is an
`Int` so that the negative `DUMMY_ID` sentinel is representable. -/
structure Row where
  id : Int
  payload : Obj

/-- Modelled from the spec: `lf.Row.DUMMY_ID`, the distinguished id marking
synthetic rows produced by joins; `lf.Row` itself is not under src/.  The
claims only compare against the constant, so its concrete value is free. -/
def DUMMY_ID : Int := -1

/-- The slice of `lf.schema.Column` that `getField`/`setField` consume:
`getName()`, `getTable().getName()` and `getAlias()` (`none` models a
null/undefined alias). -/
structure Column where
  name : String
  tableName : String
  getAlias : Option String

/-- `lf.proc.RelationEntry`: a row, the process-unique entry id handed out by
the constructor, and the prefix flag (`isPrefixApplied_`). -/
structure RelationEntry where
  row : Row
  id : Nat
  isPrefixApplied : Bool

/-- `lf.proc.RelationEntry.getNextId_`: returns the current value of the
process-wide counter and increments it (state-passing rendition of
`lf.proc.RelationEntry.id_++`). -/
def RelationEntry.getNextId (st : Nat) : Nat × Nat := (st, st + 1)

/-- The `lf.proc.RelationEntry` constructor: assigns `getNextId_()` as the
entry id.  The counter state is threaded explicitly. -/
def RelationEntry.create (row : Row) (isPrefixApplied : Bool) (st : Nat) :
    RelationEntry × Nat :=
  let (i, st') := RelationEntry.getNextId st
  (⟨row, i, isPrefixApplied⟩, st')

/-- `goog.structs.Set` built from a list of strings: keeps the first
occurrence of each element, in insertion order. -/
def googSet (l : List String) : List String :=
  l.foldl (fun acc s => if s ∈ acc then acc else acc ++ [s]) []

/-- `goog.structs.Set.prototype.equals`: the counts agree and every element
of the first set is an element of the second. -/
def googSetEquals (a b : List String) : Bool :=
  decide (a.length = b.length) && a.all (fun s => decide (s ∈ b))

/-- `lf.proc.Relation`: the entry list and the source-table set `tables_`
(a `goog.structs.Set`, modelled as its deduplicated value list). -/
structure Relation where
  entries : List RelationEntry
  tables_ : List String

/-- The `lf.proc.Relation` constructor: wraps the table-name list into a
`goog.structs.Set`. -/
def Relation.mkRel (entries : List RelationEntry) (tables : List String) :
    Relation :=
  ⟨entries, googSet tables⟩

/-- `lf.proc.Relation.prototype.isCompatible`: table sets are `equals`. -/
def Relation.isCompatible (r1 r2 : Relation) : Bool :=
  googSetEquals r1.tables_ r2.tables_

/-- The compatibility check performed by `assertCompatible_` inside both
`Relation.intersect` and `Relation.union`: every input relation is checked
against `relations[0]`.  The assertion in the code fails exactly when this
predicate is `false`. -/
def Relation.setOpAssertOk (relations : List Relation) : Bool :=
  match relations with
  | [] => true
  | r0 :: _ => relations.all (fun r => Relation.isCompatible r0 r)

/-- `lf.proc.Relation.createEmpty`: the shared empty relation (no entries,
no source tables).  Sharing is reference identity in JS; the observable
value is this constant. -/
def Relation.createEmpty : Relation := Relation.mkRel [] []

/-- `goog.structs.Map.set` on a map keyed by entry id: replaces the value
in place when the key is present, otherwise appends. -/
def mapSet : List (Nat × RelationEntry) → Nat → RelationEntry →
    List (Nat × RelationEntry)
  | [], k, v => [(k, v)]
  | (k', v') :: rest, k, v =>
      if k' = k then (k, v) :: rest else (k', v') :: mapSet rest k v

/-- `goog.structs.Map.containsKey`. -/
def mapContainsKey (m : List (Nat × RelationEntry)) (k : Nat) : Bool :=
  m.any (fun p => decide (p.1 = k))

/-- `goog.structs.Map.getValues` (values in key-insertion order). -/
def mapGetValues (m : List (Nat × RelationEntry)) : List RelationEntry :=
  m.map Prod.snd

/-- The `[entry.id --> entry]` map built per relation inside
`Relation.intersect`. -/
def buildIdMap (entries : List RelationEntry) : List (Nat × RelationEntry) :=
  entries.foldl (fun m e => mapSet m e.id e) []

/-- `lf.proc.Relation.intersect`: on an empty input list returns the empty
singleton; otherwise gathers all entries of all inputs, builds one id map
per input, keeps (deduplicated by id) the entries whose id every map
contains, over the first input's tables. -/
def Relation.intersect (relations : List Relation) : Relation :=
  match relations with
  | [] => Relation.createEmpty
  | r0 :: _ =>
    let allEntries := relations.foldr (fun r acc => r.entries ++ acc) []
    let relationMaps := relations.map (fun r => buildIdMap r.entries)
    let intersection := allEntries.foldl
      (fun m e =>
        if relationMaps.all (fun mp => mapContainsKey mp e.id) then
          mapSet m e.id e
        else m)
      []
    Relation.mkRel (mapGetValues intersection) r0.tables_

/-- `lf.proc.Relation.union`: on an empty input list returns the empty
singleton; otherwise inserts every entry of every input into one id-keyed
map (later entries with an equal id replace earlier ones), over the first
input's tables. -/
def Relation.union (relations : List Relation) : Relation :=
  match relations with
  | [] => Relation.createEmpty
  | r0 :: _ =>
    let u := relations.foldl
      (fun m r => r.entries.foldl (fun m' e => mapSet m' e.id e) m) []
    Relation.mkRel (mapGetValues u) r0.tables_

/-- Sequential stateful `rows.map(row => new RelationEntry(row, pfx))`:
the core of `Relation.fromRows`. -/
def createEntries (rows : List Row) (isPrefixApplied : Bool) (st : Nat) :
    List RelationEntry × Nat :=
  match rows with
  | [] => ([], st)
  | r :: rest =>
    let (e, st') := RelationEntry.create r isPrefixApplied st
    let (es, st'') := createEntries rest isPrefixApplied st'
    (e :: es, st'')

/-- `lf.proc.Relation.fromRows`: wraps each row into a fresh entry with
`isPrefixApplied = (tables.length > 1)` and builds a relation over the given
tables. -/
def Relation.fromRows (rows : List Row) (tables : List String) (st : Nat) :
    Relation × Nat :=
  let isPrefixApplied := decide (tables.length > 1)
  let (entries, st') := createEntries rows isPrefixApplied st
  (Relation.mkRel entries tables, st')

/-- The entry ids of a relation, in entry order. -/
def Relation.entryIds (r : Relation) : List Nat := r.entries.map (·.id)

/-- `lf.proc.RelationEntry.prototype.getField`.  When prefixes are applied
the payload is read as `payload[column.table][column.name]`; `none` models
both `undefined` and the TypeError raised when the table slot is missing or
not an object.  No alias is ever consulted. -/
def RelationEntry.getField (e : RelationEntry) (column : Column) :
    Option JsVal :=
  if e.isPrefixApplied then
    match objGet e.row.payload column.tableName with
    | some (JsVal.obj o) => objGet o column.name
    | _ => none
  else
    objGet e.row.payload column.name

/-- `lf.proc.RelationEntry.prototype.setField`.  A defined, non-null alias
short-circuits to a flat payload slot named by the alias.  Otherwise, with
prefixes applied, the table container is fetched, created when missing or
null, and the value stored under the column name; `none` is returned only in
the unmodelled case of a primitive (non-object, non-null) table slot, where
the JS property write is erroneous. -/
def RelationEntry.setField (e : RelationEntry) (column : Column)
    (value : JsVal) : Option RelationEntry :=
  match column.getAlias with
  | some a =>
      some { e with row := { e.row with
        payload := objSet e.row.payload a value } }
  | none =>
    if e.isPrefixApplied then
      match objGet e.row.payload column.tableName with
      | none =>
          some { e with row := { e.row with
            payload := objSet e.row.payload column.tableName
              (JsVal.obj (objSet [] column.name value)) } }
      | some JsVal.null =>
          some { e with row := { e.row with
            payload := objSet e.row.payload column.tableName
              (JsVal.obj (objSet [] column.name value)) } }
      | some (JsVal.obj o) =>
          some { e with row := { e.row with
            payload := objSet e.row.payload column.tableName
              (JsVal.obj (objSet o column.name value)) } }
      | some _ => none
    else
      some { e with row := { e.row with
        payload := objSet e.row.payload column.name value } }

/-- The `mergeEntry` closure inside `combineEntries`: a prefix-applied side
has each payload slot copied into the result; a non-prefixed side has its
whole payload stored under `entryTables[0]`. -/
def mergeEntry (result : Obj) (entry : RelationEntry)
    (entryTables : List String) : Obj :=
  if entry.isPrefixApplied then
    entry.row.payload.foldl (fun res kv => objSet res kv.1 kv.2) result
  else
    objSet result (entryTables.headD "") (JsVal.obj entry.row.payload)

/-- `lf.proc.RelationEntry.combineEntries`: merges the left then the right
side into one table-keyed payload, wraps it in a `DUMMY_ID` row, and
constructs a prefix-applied entry (allocating a fresh entry id). -/
def RelationEntry.combineEntries (leftEntry : RelationEntry)
    (leftEntryTables : List String) (rightEntry : RelationEntry)
    (rightEntryTables : List String) (st : Nat) : RelationEntry × Nat :=
  let result := mergeEntry (mergeEntry [] leftEntry leftEntryTables)
    rightEntry rightEntryTables
  RelationEntry.create ⟨DUMMY_ID, result⟩ true st

/-- The table names a side contributes to the combined payload: its payload
keys when prefix-applied, otherwise its single source-table name. -/
def contribKeys (entry : RelationEntry) (entryTables : List String) :
    List String :=
  if entry.isPrefixApplied then objKeys entry.row.payload
  else [entryTables.headD ""]

/-- One entry-constructing operation: a direct `new lf.proc.RelationEntry`,
a `Relation.fromRows` call, or a `RelationEntry.combineEntries` call.  Every
path that constructs entries goes through the constructor and hence through
`getNextId_`. -/
inductive ConsOp where
  | create (row : Row) (isPrefixApplied : Bool)
  | fromRows (rows : List Row) (tables : List String)
  | combine (l : RelationEntry) (lt : List String) (r : RelationEntry)
      (rt : List String)

/-- Runs one constructing operation, returning the entries it constructs
(in construction order) and the updated counter. -/
def runOp : ConsOp → Nat → List RelationEntry × Nat
  | ConsOp.create row pfx, st =>
    let (e, st') := RelationEntry.create row pfx st
    ([e], st')
  | ConsOp.fromRows rows tables, st =>
    let (rel, st') := Relation.fromRows rows tables st
    (rel.entries, st')
  | ConsOp.combine l lt r rt, st =>
    let (e, st') := RelationEntry.combineEntries l lt r rt st
    ([e], st')

/-- Runs a sequence of constructing operations, collecting every
constructed entry in construction order. -/
def runTrace : List ConsOp → Nat → List RelationEntry × Nat
  | [], st => ([], st)
  | op :: rest, st =>
    let (es, st') := runOp op st
    let (es', st'') := runTrace rest st'
    (es ++ es', st'')

/-- `lf.Exception.Type` (the error kinds of §7). -/
inductive ExceptionType where
  | NOT_FOUND | SYNTAX | CONSTRAINT | TYPE | SCOPE | STORE | CANCELLED
  | UNKNOWN
deriving DecidableEq

/-- `lf.Exception`: an error kind plus a message. -/
structure LfException where
  name : ExceptionType
  message : String
deriving DecidableEq

/-- `lf.Global`: the service registry, a `goog.structs.Map` from the
service id's string form to the registered service. -/
structure Global (α : Type) where
  services : List (String × α)

/-- `goog.structs.Map.set` for the service registry. -/
def svcSet {α : Type} : List (String × α) → String → α → List (String × α)
  | [], k, v => [(k, v)]
  | (k', v') :: rest, k, v =>
      if k' = k then (k, v) :: rest else (k', v') :: svcSet rest k v

/-- `goog.structs.Map.get` with a `null` default: `none` models the null
result for an absent key. -/
def svcGet {α : Type} : List (String × α) → String → Option α
  | [], _ => none
  | (k', v') :: rest, k => if k' = k then some v' else svcGet rest k

/-- `lf.Global.prototype.registerService`: stores the service under the id
and returns it (for chaining), together with the updated registry. -/
def Global.registerService {α : Type} (g : Global α) (serviceId : String)
    (service : α) : α × Global α :=
  (service, ⟨svcSet g.services serviceId service⟩)

/-- `lf.Global.prototype.getService`: the registered service, or a
`NOT_FOUND` exception carrying the service id when the map yields null. -/
def Global.getService {α : Type} (g : Global α) (serviceId : String) :
    Except LfException α :=
  match svcGet g.services serviceId with
  | none => Except.error ⟨ExceptionType.NOT_FOUND, serviceId⟩
  | some service => Except.ok service

/-- `lf.Global.prototype.isRegistered`: `containsKey` on the registry. -/
def Global.isRegistered {α : Type} (g : Global α) (serviceId : String) :
    Bool :=
  g.services.any (fun p => decide (p.1 = serviceId))

/-- The slice of a table schema the insert builder consumes: its name and
whether a primary key is declared. -/
structure Table where
  name : String
  hasPrimaryKey : Bool

/-- Modelled from the spec: `lf.query.InsertBuilder` (its source is not
under src/, only its tests are).  Per §4.9/§7/S2: the builder records the
`allowReplace` flag, the target table once `into()` is called, and the row
list once `values()` is called. -/
structure InsertBuilder where
  allowReplace : Bool
  intoTable : Option Table
  valuesList : Option (List Row)

/-- Modelled from the spec: `new lf.query.InsertBuilder(allowReplace)`
starts with neither clause present. -/
def InsertBuilder.create (allowReplace : Bool) : InsertBuilder :=
  ⟨allowReplace, none, none⟩

/-- Modelled from the spec: `into()` fails with `SYNTAX` at builder-call
time when `into()` was already called, otherwise records the table. -/
def InsertBuilder.into (b : InsertBuilder) (table : Table) :
    Except LfException InsertBuilder :=
  match b.intoTable with
  | some _ => Except.error ⟨ExceptionType.SYNTAX, "into() has already been called"⟩
  | none => Except.ok { b with intoTable := some table }

/-- Modelled from the spec: `values()` fails with `SYNTAX` at builder-call
time when `values()` was already called, otherwise records the rows. -/
def InsertBuilder.values (b : InsertBuilder) (rows : List Row) :
    Except LfException InsertBuilder :=
  match b.valuesList with
  | some _ => Except.error ⟨ExceptionType.SYNTAX, "values() has already been called"⟩
  | none => Except.ok { b with valuesList := some rows }

/-- Modelled from the spec: `exec()` requires `into()` and `values()` to
have been called (`SYNTAX` otherwise), and rejects `allowReplace` on a
table without a primary key with `CONSTRAINT`; a valid query proceeds with
the recorded table and rows. -/
def InsertBuilder.exec (b : InsertBuilder) :
    Except LfException (Table × List Row) :=
  match b.intoTable with
  | none => Except.error ⟨ExceptionType.SYNTAX, "Missing into() clause"⟩
  | some table =>
    match b.valuesList with
    | none => Except.error ⟨ExceptionType.SYNTAX, "Missing values() clause"⟩
    | some rows =>
      if b.allowReplace && !table.hasPrimaryKey then
        Except.error ⟨ExceptionType.CONSTRAINT,
          "allowReplace requires a primary key"⟩
      else Except.ok (table, rows)

/-! ## Concrete sample data -/

/-- A sample row carrying one field. -/
def sampleRow (n : Int) : Row := ⟨n, [("c", JsVal.num n)]⟩

/-- A sample non-prefixed entry with a chosen entry id. -/
def sampleEntry (i : Nat) : RelationEntry := ⟨sampleRow 0, i, false⟩

/-- A sample relation over table `T` holding entries 1 and 2. -/
def sampleRel1 : Relation :=
  Relation.mkRel [sampleEntry 1, sampleEntry 2] ["T"]

/-- A sample relation over table `T` holding entries 2 and 3. -/
def sampleRel2 : Relation :=
  Relation.mkRel [sampleEntry 2, sampleEntry 3] ["T"]

/-- A sample relation over table `T` holding entry 3 only. -/
def sampleRel3 : Relation :=
  Relation.mkRel [sampleEntry 3] ["T"]

/-- A column named `c` of table `T` carrying alias `a`. -/
def aliasColumn : Column := ⟨"c", "T", some "a"⟩

/-- A column named `c` of table `T` with no alias. -/
def plainColumn : Column := ⟨"c", "T", none⟩

/-- A non-prefixed entry with an empty payload. -/
def plainEntry : RelationEntry := ⟨⟨7, []⟩, 0, false⟩

/-- A prefix-applied entry with an empty payload. -/
def pfxEntry : RelationEntry := ⟨⟨5, []⟩, 0, true⟩

/-- A non-prefixed entry over table `L` with one field. -/
def leftSample : RelationEntry := ⟨⟨1, [("x", JsVal.num 1)]⟩, 0, false⟩

/-- A non-prefixed entry over table `R` with one field. -/
def rightSample : RelationEntry := ⟨⟨2, [("y", JsVal.num 2)]⟩, 1, false⟩

/-- A sample table with a primary key. -/
def jobTable : Table := ⟨"Job", true⟩

/-- A sample table without a primary key. -/
def jobHistoryTable : Table := ⟨"JobHistory", false⟩

/-! ## Lemmas about the `goog.structs.Set` model -/

theorem googSet_go : ∀ (l acc : List String) (s : String),
    (s ∈ l.foldl (fun acc t => if t ∈ acc then acc else acc ++ [t]) acc ↔
      s ∈ acc ∨ s ∈ l)
  | [], acc, s => by simp
  | a :: l, acc, s => by
    simp only [List.foldl_cons]
    rw [googSet_go l _ s]
    by_cases h : a ∈ acc
    · simp only [if_pos h, List.mem_cons]
      constructor
      · rintro (hs | hs) <;> tauto
      · rintro (hs | rfl | hs) <;> tauto
    · simp only [if_neg h, List.mem_append, List.mem_singleton, List.mem_cons]
      tauto

theorem googSet_mem (l : List String) (s : String) :
    s ∈ googSet l ↔ s ∈ l := by
  simpa using googSet_go l [] s

theorem googSet_nodup_go : ∀ (l acc : List String), acc.Nodup →
    (l.foldl (fun acc t => if t ∈ acc then acc else acc ++ [t]) acc).Nodup
  | [], _, h => h
  | a :: l, acc, h => by
    simp only [List.foldl_cons]
    apply googSet_nodup_go
    by_cases ha : a ∈ acc
    · simpa [ha] using h
    · simp [ha, List.nodup_append, h]

theorem googSet_nodup (l : List String) : (googSet l).Nodup :=
  googSet_nodup_go l [] List.nodup_nil

theorem googSetEquals_iff (a b : List String) (ha : a.Nodup)
    (hb : b.Nodup) :
    googSetEquals a b = true ↔ ∀ s, s ∈ a ↔ s ∈ b := by
  unfold googSetEquals
  simp only [Bool.and_eq_true, decide_eq_true_eq, List.all_eq_true]
  constructor
  · rintro ⟨hlen, hsub⟩ s
    have hsub' : a.toFinset ⊆ b.toFinset := by
      intro x hx
      rw [List.mem_toFinset] at hx ⊢
      exact hsub x hx
    have hcard : b.toFinset.card ≤ a.toFinset.card := by
      rw [List.toFinset_card_of_nodup ha, List.toFinset_card_of_nodup hb]
      omega
    have heq := Finset.eq_of_subset_of_card_le hsub' hcard
    constructor
    · intro hs
      have : s ∈ a.toFinset := List.mem_toFinset.mpr hs
      rw [heq] at this
      exact List.mem_toFinset.mp this
    · intro hs
      have : s ∈ b.toFinset := List.mem_toFinset.mpr hs
      rw [← heq] at this
      exact List.mem_toFinset.mp this
  · intro h
    have heq : a.toFinset = b.toFinset := by
      ext s
      rw [List.mem_toFinset, List.mem_toFinset]
      exact h s
    refine ⟨?_, fun s hs => (h s).mp hs⟩
    rw [← List.toFinset_card_of_nodup ha, ← List.toFinset_card_of_nodup hb,
      heq]

/-! ## Lemmas about the `goog.structs.Map` model -/

theorem mapSet_nil (k : Nat) (v : RelationEntry) :
    mapSet [] k v = [(k, v)] := rfl

theorem mapSet_cons_eq (k : Nat) (v' v : RelationEntry)
    (rest : List (Nat × RelationEntry)) :
    mapSet ((k, v') :: rest) k v = (k, v) :: rest := by
  simp [mapSet]

theorem mapSet_cons_ne (k' k : Nat) (v' v : RelationEntry)
    (rest : List (Nat × RelationEntry)) (h : k' ≠ k) :
    mapSet ((k', v') :: rest) k v = (k', v') :: mapSet rest k v := by
  simp [mapSet, h]

theorem mapSet_fst_mem : ∀ (m : List (Nat × RelationEntry)) (k : Nat)
    (v : RelationEntry) (i : Nat),
    (i ∈ (mapSet m k v).map Prod.fst ↔ i = k ∨ i ∈ m.map Prod.fst)
  | [], k, v, i => by simp [mapSet_nil]
  | (k', v') :: rest, k, v, i => by
    by_cases h : k' = k
    · subst h
      rw [mapSet_cons_eq]
      simp only [List.map_cons, List.mem_cons]
      tauto
    · rw [mapSet_cons_ne k' k v' v rest h]
      simp only [List.map_cons, List.mem_cons, mapSet_fst_mem rest k v i]
      tauto

theorem mapSet_snd_mem : ∀ (m : List (Nat × RelationEntry)) (k : Nat)
    (v w : RelationEntry),
    w ∈ (mapSet m k v).map Prod.snd → w = v ∨ w ∈ m.map Prod.snd
  | [], k, v, w => by simp [mapSet_nil]
  | (k', v') :: rest, k, v, w => by
    by_cases h : k' = k
    · subst h
      rw [mapSet_cons_eq]
      simp only [List.map_cons, List.mem_cons]
      tauto
    · rw [mapSet_cons_ne k' k v' v rest h]
      simp only [List.map_cons, List.mem_cons]
      rintro (rfl | hw)
      · exact Or.inr (Or.inl rfl)
      · rcases mapSet_snd_mem rest k v w hw with h1 | h1 <;> tauto

theorem mapSet_fst_nodup : ∀ (m : List (Nat × RelationEntry)) (k : Nat)
    (v : RelationEntry),
    (m.map Prod.fst).Nodup → ((mapSet m k v).map Prod.fst).Nodup
  | [], k, v, _ => by simp [mapSet_nil]
  | (k', v') :: rest, k, v, h => by
    by_cases hk : k' = k
    · subst hk
      rw [mapSet_cons_eq]
      simpa using h
    · rw [mapSet_cons_ne k' k v' v rest hk]
      simp only [List.map_cons, List.nodup_cons] at h ⊢
      obtain ⟨hnotin, hrest⟩ := h
      refine ⟨?_, mapSet_fst_nodup rest k v hrest⟩
      intro hmem
      rw [mapSet_fst_mem rest k v k'] at hmem
      rcases hmem with rfl | hmem
      · exact hk rfl
      · exact hnotin hmem

theorem mapSet_coherent : ∀ (m : List (Nat × RelationEntry)) (k : Nat)
    (v : RelationEntry),
    (∀ p ∈ m, p.2.id = p.1) → v.id = k →
    ∀ p ∈ mapSet m k v, p.2.id = p.1
  | [], k, v, _, hv => by simp [mapSet_nil, hv]
  | (k', v') :: rest, k, v, h, hv => by
    by_cases hk : k' = k
    · subst hk
      rw [mapSet_cons_eq]
      intro p hp
      rcases List.mem_cons.mp hp with hp' | hp'
      · rw [hp']
        exact hv
      · exact h p (List.mem_cons_of_mem _ hp')
    · rw [mapSet_cons_ne k' k v' v rest hk]
      intro p hp
      rcases List.mem_cons.mp hp with hp' | hp'
      · rw [hp']
        exact h (k', v') (List.mem_cons_self _ _)
      · exact mapSet_coherent rest k v
          (fun q hq => h q (List.mem_cons_of_mem _ hq)) hv p hp'

theorem mapContainsKey_iff (m : List (Nat × RelationEntry)) (k : Nat) :
    mapContainsKey m k = true ↔ k ∈ m.map Prod.fst := by
  simp only [mapContainsKey, List.any_eq_true, decide_eq_true_eq,
    List.mem_map]

/-! ## Characterizing the id-keyed insertion folds of union and intersect -/

theorem insFold_fst_mem : ∀ (es : List RelationEntry)
    (m0 : List (Nat × RelationEntry)) (i : Nat),
    (i ∈ (es.foldl (fun m e => mapSet m e.id e) m0).map Prod.fst ↔
      i ∈ m0.map Prod.fst ∨ i ∈ es.map (·.id))
  | [], m0, i => by simp
  | e :: es, m0, i => by
    simp only [List.foldl_cons]
    rw [insFold_fst_mem es _ i, mapSet_fst_mem]
    simp only [List.map_cons, List.mem_cons]
    tauto

theorem insFold_snd_mem : ∀ (es : List RelationEntry)
    (m0 : List (Nat × RelationEntry)) (w : RelationEntry),
    w ∈ (es.foldl (fun m e => mapSet m e.id e) m0).map Prod.snd →
      w ∈ m0.map Prod.snd ∨ w ∈ es
  | [], m0, w => fun h => Or.inl h
  | e :: es, m0, w => by
    simp only [List.foldl_cons]
    intro h
    rcases insFold_snd_mem es _ w h with h1 | h1
    · rcases mapSet_snd_mem m0 e.id e w h1 with rfl | h2
      · exact Or.inr (List.mem_cons_self _ _)
      · exact Or.inl h2
    · exact Or.inr (List.mem_cons_of_mem _ h1)

theorem insFold_fst_nodup : ∀ (es : List RelationEntry)
    (m0 : List (Nat × RelationEntry)),
    (m0.map Prod.fst).Nodup →
    ((es.foldl (fun m e => mapSet m e.id e) m0).map Prod.fst).Nodup
  | [], _, h => h
  | e :: es, m0, h => by
    simp only [List.foldl_cons]
    exact insFold_fst_nodup es _ (mapSet_fst_nodup m0 e.id e h)

theorem insFold_coherent : ∀ (es : List RelationEntry)
    (m0 : List (Nat × RelationEntry)),
    (∀ p ∈ m0, p.2.id = p.1) →
    ∀ p ∈ es.foldl (fun m e => mapSet m e.id e) m0, p.2.id = p.1
  | [], _, h => h
  | e :: es, m0, h => by
    simp only [List.foldl_cons]
    exact insFold_coherent es _ (mapSet_coherent m0 e.id e h rfl)

theorem foldIns_fst_mem (q : Nat → Bool) : ∀ (es : List RelationEntry)
    (m0 : List (Nat × RelationEntry)) (i : Nat),
    (i ∈ ((es.foldl (fun m e => if q e.id then mapSet m e.id e else m)
        m0).map Prod.fst) ↔
      i ∈ m0.map Prod.fst ∨ (i ∈ es.map (·.id) ∧ q i = true))
  | [], m0, i => by simp
  | e :: es, m0, i => by
    simp only [List.foldl_cons]
    rw [foldIns_fst_mem q es _ i]
    by_cases hq : q e.id = true
    · rw [if_pos hq]
      rw [mapSet_fst_mem]
      simp only [List.map_cons, List.mem_cons]
      constructor
      · rintro ((rfl | h) | ⟨h1, h2⟩)
        · exact Or.inr ⟨Or.inl rfl, hq⟩
        · exact Or.inl h
        · exact Or.inr ⟨Or.inr h1, h2⟩
      · rintro (h | ⟨rfl | h1, h2⟩)
        · exact Or.inl (Or.inr h)
        · exact Or.inl (Or.inl rfl)
        · exact Or.inr ⟨h1, h2⟩
    · rw [if_neg hq]
      simp only [List.map_cons, List.mem_cons]
      constructor
      · rintro (h | ⟨h1, h2⟩)
        · exact Or.inl h
        · exact Or.inr ⟨Or.inr h1, h2⟩
      · rintro (h | ⟨rfl | h1, h2⟩)
        · exact Or.inl h
        · exact absurd h2 hq
        · exact Or.inr ⟨h1, h2⟩

theorem foldIns_snd_mem (q : Nat → Bool) : ∀ (es : List RelationEntry)
    (m0 : List (Nat × RelationEntry)) (w : RelationEntry),
    w ∈ ((es.foldl (fun m e => if q e.id then mapSet m e.id e else m)
        m0).map Prod.snd) →
      w ∈ m0.map Prod.snd ∨ w ∈ es
  | [], m0, w => fun h => Or.inl h
  | e :: es, m0, w => by
    simp only [List.foldl_cons]
    intro h
    rcases foldIns_snd_mem q es _ w h with h1 | h1
    · by_cases hq : q e.id = true
      · rw [if_pos hq] at h1
        rcases mapSet_snd_mem m0 e.id e w h1 with rfl | h2
        · exact Or.inr (List.mem_cons_self _ _)
        · exact Or.inl h2
      · rw [if_neg hq] at h1
        exact Or.inl h1
    · exact Or.inr (List.mem_cons_of_mem _ h1)

theorem foldIns_fst_nodup (q : Nat → Bool) : ∀ (es : List RelationEntry)
    (m0 : List (Nat × RelationEntry)),
    (m0.map Prod.fst).Nodup →
    ((es.foldl (fun m e => if q e.id then mapSet m e.id e else m)
      m0).map Prod.fst).Nodup
  | [], _, h => h
  | e :: es, m0, h => by
    simp only [List.foldl_cons]
    refine foldIns_fst_nodup q es _ ?_
    by_cases hq : q e.id = true
    · rw [if_pos hq]
      exact mapSet_fst_nodup m0 e.id e h
    · rw [if_neg hq]
      exact h

theorem foldIns_coherent (q : Nat → Bool) : ∀ (es : List RelationEntry)
    (m0 : List (Nat × RelationEntry)),
    (∀ p ∈ m0, p.2.id = p.1) →
    ∀ p ∈ es.foldl (fun m e => if q e.id then mapSet m e.id e else m) m0,
      p.2.id = p.1
  | [], _, h => h
  | e :: es, m0, h => by
    simp only [List.foldl_cons]
    refine foldIns_coherent q es _ ?_
    by_cases hq : q e.id = true
    · rw [if_pos hq]
      exact mapSet_coherent m0 e.id e h rfl
    · rw [if_neg hq]
      exact h

theorem unionFold_fst_mem : ∀ (rl : List Relation)
    (m0 : List (Nat × RelationEntry)) (i : Nat),
    (i ∈ ((rl.foldl
        (fun m r => r.entries.foldl (fun m' e => mapSet m' e.id e) m)
        m0).map Prod.fst) ↔
      i ∈ m0.map Prod.fst ∨ ∃ r ∈ rl, i ∈ r.entries.map (·.id))
  | [], m0, i => by simp
  | r :: rl, m0, i => by
    simp only [List.foldl_cons]
    rw [unionFold_fst_mem rl _ i, insFold_fst_mem]
    constructor
    · rintro ((h | h) | ⟨r', hr', h⟩)
      · exact Or.inl h
      · exact Or.inr ⟨r, List.mem_cons_self _ _, h⟩
      · exact Or.inr ⟨r', List.mem_cons_of_mem _ hr', h⟩
    · rintro (h | ⟨r', hr', h⟩)
      · exact Or.inl (Or.inl h)
      · rcases List.mem_cons.mp hr' with rfl | hr''
        · exact Or.inl (Or.inr h)
        · exact Or.inr ⟨r', hr'', h⟩

theorem unionFold_snd_mem : ∀ (rl : List Relation)
    (m0 : List (Nat × RelationEntry)) (w : RelationEntry),
    w ∈ ((rl.foldl
        (fun m r => r.entries.foldl (fun m' e => mapSet m' e.id e) m)
        m0).map Prod.snd) →
      w ∈ m0.map Prod.snd ∨ ∃ r ∈ rl, w ∈ r.entries
  | [], m0, w => fun h => Or.inl h
  | r :: rl, m0, w => by
    simp only [List.foldl_cons]
    intro h
    rcases unionFold_snd_mem rl _ w h with h1 | ⟨r', hr', h1⟩
    · rcases insFold_snd_mem r.entries m0 w h1 with h2 | h2
      · exact Or.inl h2
      · exact Or.inr ⟨r, List.mem_cons_self _ _, h2⟩
    · exact Or.inr ⟨r', List.mem_cons_of_mem _ hr', h1⟩

theorem unionFold_fst_nodup : ∀ (rl : List Relation)
    (m0 : List (Nat × RelationEntry)),
    (m0.map Prod.fst).Nodup →
    ((rl.foldl (fun m r => r.entries.foldl (fun m' e => mapSet m' e.id e) m)
      m0).map Prod.fst).Nodup
  | [], _, h => h
  | r :: rl, m0, h => by
    simp only [List.foldl_cons]
    exact unionFold_fst_nodup rl _ (insFold_fst_nodup r.entries m0 h)

theorem unionFold_coherent : ∀ (rl : List Relation)
    (m0 : List (Nat × RelationEntry)),
    (∀ p ∈ m0, p.2.id = p.1) →
    ∀ p ∈ rl.foldl
      (fun m r => r.entries.foldl (fun m' e => mapSet m' e.id e) m) m0,
      p.2.id = p.1
  | [], _, h => h
  | r :: rl, m0, h => by
    simp only [List.foldl_cons]
    exact unionFold_coherent rl _ (insFold_coherent r.entries m0 h)

/-- Value-to-key projection under the coherence invariant: the ids of the
map's values are exactly its keys. -/
theorem snd_id_eq_fst (m : List (Nat × RelationEntry))
    (hco : ∀ p ∈ m, p.2.id = p.1) :
    (m.map Prod.snd).map (·.id) = m.map Prod.fst := by
  rw [List.map_map]
  exact List.map_congr_left hco

/-- Membership in the `allEntries` accumulation of `Relation.intersect`. -/
theorem allEntries_mem : ∀ (rl : List Relation) (e : RelationEntry),
    (e ∈ rl.foldr (fun r acc => r.entries ++ acc) [] ↔
      ∃ r ∈ rl, e ∈ r.entries)
  | [], e => by simp
  | r :: rl, e => by
    simp only [List.foldr_cons, List.mem_append, allEntries_mem rl e]
    constructor
    · rintro (h | ⟨r', hr', h⟩)
      · exact ⟨r, List.mem_cons_self _ _, h⟩
      · exact ⟨r', List.mem_cons_of_mem _ hr', h⟩
    · rintro ⟨r', hr', h⟩
      rcases List.mem_cons.mp hr' with rfl | hr''
      · exact Or.inl h
      · exact Or.inr ⟨r', hr'', h⟩

theorem allEntries_id_mem (rl : List Relation) (i : Nat) :
    i ∈ (rl.foldr (fun r acc => r.entries ++ acc) []).map (·.id) ↔
      ∃ r ∈ rl, i ∈ r.entries.map (·.id) := by
  simp only [List.mem_map]
  constructor
  · rintro ⟨e, he, rfl⟩
    rcases (allEntries_mem rl e).mp he with ⟨r, hr, her⟩
    exact ⟨r, hr, e, her, rfl⟩
  · rintro ⟨r, hr, e, her, rfl⟩
    exact ⟨e, (allEntries_mem rl e).mpr ⟨r, hr, her⟩, rfl⟩

theorem buildIdMap_containsKey (es : List RelationEntry) (i : Nat) :
    mapContainsKey (buildIdMap es) i = true ↔ i ∈ es.map (·.id) := by
  rw [mapContainsKey_iff]
  have h := insFold_fst_mem es [] i
  simpa [buildIdMap] using h

theorem interFold_fst_mem (rm : List (List (Nat × RelationEntry)))
    (es : List RelationEntry) (m0 : List (Nat × RelationEntry)) (i : Nat) :
    (i ∈ ((es.foldl
        (fun m e => if rm.all (fun mp => mapContainsKey mp e.id) then
          mapSet m e.id e else m) m0).map Prod.fst) ↔
      i ∈ m0.map Prod.fst ∨
        (i ∈ es.map (·.id) ∧
          rm.all (fun mp => mapContainsKey mp i) = true)) :=
  foldIns_fst_mem (fun j => rm.all (fun mp => mapContainsKey mp j)) es m0 i

theorem interFold_snd_mem (rm : List (List (Nat × RelationEntry)))
    (es : List RelationEntry) (m0 : List (Nat × RelationEntry))
    (w : RelationEntry) :
    w ∈ ((es.foldl
        (fun m e => if rm.all (fun mp => mapContainsKey mp e.id) then
          mapSet m e.id e else m) m0).map Prod.snd) →
      w ∈ m0.map Prod.snd ∨ w ∈ es :=
  foldIns_snd_mem (fun j => rm.all (fun mp => mapContainsKey mp j)) es m0 w

theorem interFold_fst_nodup (rm : List (List (Nat × RelationEntry)))
    (es : List RelationEntry) (m0 : List (Nat × RelationEntry)) :
    (m0.map Prod.fst).Nodup →
    ((es.foldl
      (fun m e => if rm.all (fun mp => mapContainsKey mp e.id) then
        mapSet m e.id e else m) m0).map Prod.fst).Nodup :=
  foldIns_fst_nodup (fun j => rm.all (fun mp => mapContainsKey mp j)) es m0

theorem interFold_coherent (rm : List (List (Nat × RelationEntry)))
    (es : List RelationEntry) (m0 : List (Nat × RelationEntry)) :
    (∀ p ∈ m0, p.2.id = p.1) →
    ∀ p ∈ es.foldl
      (fun m e => if rm.all (fun mp => mapContainsKey mp e.id) then
        mapSet m e.id e else m) m0,
      p.2.id = p.1 :=
  foldIns_coherent (fun j => rm.all (fun mp => mapContainsKey mp j)) es m0

/-! ## Entry-level characterizations of intersect and union -/

theorem intersect_id_mem (r0 : Relation) (rest : List Relation) (i : Nat) :
    i ∈ (Relation.intersect (r0 :: rest)).entries.map (·.id) ↔
      ∀ r ∈ r0 :: rest, i ∈ r.entries.map (·.id) := by
  simp only [Relation.intersect, Relation.mkRel, mapGetValues]
  rw [snd_id_eq_fst _ (interFold_coherent _ _ [] (by simp))]
  rw [interFold_fst_mem]
  simp only [List.map_nil, List.not_mem_nil, false_or]
  rw [allEntries_id_mem]
  simp only [List.all_eq_true, List.forall_mem_map, buildIdMap_containsKey]
  constructor
  · rintro ⟨_, h⟩
    exact h
  · intro h
    exact ⟨⟨r0, List.mem_cons_self _ _, h r0 (List.mem_cons_self _ _)⟩, h⟩

theorem intersect_entries_sub (r0 : Relation) (rest : List Relation) :
    ∀ e ∈ (Relation.intersect (r0 :: rest)).entries,
      ∃ r ∈ r0 :: rest, e ∈ r.entries := by
  intro e he
  simp only [Relation.intersect, Relation.mkRel, mapGetValues] at he
  rcases interFold_snd_mem _ _ [] e he with h | h
  · simp at h
  · exact (allEntries_mem (r0 :: rest) e).mp h

theorem intersect_ids_nodup (r0 : Relation) (rest : List Relation) :
    ((Relation.intersect (r0 :: rest)).entries.map (·.id)).Nodup := by
  simp only [Relation.intersect, Relation.mkRel, mapGetValues]
  rw [snd_id_eq_fst _ (interFold_coherent _ _ [] (by simp))]
  exact interFold_fst_nodup _ _ [] (by simp)

theorem intersect_tables (r0 : Relation) (rest : List Relation) :
    (Relation.intersect (r0 :: rest)).tables_ = googSet r0.tables_ := rfl

theorem union_id_mem (r0 : Relation) (rest : List Relation) (i : Nat) :
    i ∈ (Relation.union (r0 :: rest)).entries.map (·.id) ↔
      ∃ r ∈ r0 :: rest, i ∈ r.entries.map (·.id) := by
  simp only [Relation.union, Relation.mkRel, mapGetValues]
  rw [snd_id_eq_fst _ (unionFold_coherent _ [] (by simp))]
  rw [unionFold_fst_mem]
  simp

theorem union_entries_sub (r0 : Relation) (rest : List Relation) :
    ∀ e ∈ (Relation.union (r0 :: rest)).entries,
      ∃ r ∈ r0 :: rest, e ∈ r.entries := by
  intro e he
  simp only [Relation.union, Relation.mkRel, mapGetValues] at he
  rcases unionFold_snd_mem _ [] e he with h | h
  · simp at h
  · exact h

theorem union_ids_nodup (r0 : Relation) (rest : List Relation) :
    ((Relation.union (r0 :: rest)).entries.map (·.id)).Nodup := by
  simp only [Relation.union, Relation.mkRel, mapGetValues]
  rw [snd_id_eq_fst _ (unionFold_coherent _ [] (by simp))]
  exact unionFold_fst_nodup _ [] (by simp)

theorem union_tables (r0 : Relation) (rest : List Relation) :
    (Relation.union (r0 :: rest)).tables_ = googSet r0.tables_ := rfl

theorem entryIds_def (r : Relation) : r.entryIds = r.entries.map (·.id) :=
  rfl

theorem union_pair_mem (r1 r2 : Relation) (i : Nat) :
    i ∈ (Relation.union [r1, r2]).entryIds ↔
      i ∈ r1.entryIds ∨ i ∈ r2.entryIds := by
  simp only [entryIds_def]
  rw [union_id_mem]
  simp

theorem intersect_pair_mem (r1 r2 : Relation) (i : Nat) :
    i ∈ (Relation.intersect [r1, r2]).entryIds ↔
      i ∈ r1.entryIds ∧ i ∈ r2.entryIds := by
  simp only [entryIds_def]
  rw [intersect_id_mem]
  simp

/-- **C1.** For every non-empty list of pairwise-compatible relations,
`Relation.intersect` returns a relation containing exactly those entries
whose entry id is present in every input relation (deduplicated by id, each
result entry drawn from an input), and `Relation.union` returns a relation
containing every input entry deduplicated by entry id; in both cases the
result's source-table set equals that of the first input. -/
theorem claim1_intersect_union (rl : List Relation) (hne : rl ≠ [])
    (hcomp : ∀ r ∈ rl,
      Relation.isCompatible (rl.headD Relation.createEmpty) r = true) :
    (∀ i, i ∈ (Relation.intersect rl).entryIds ↔
       ∀ r ∈ rl, i ∈ r.entryIds) ∧
    (∀ e ∈ (Relation.intersect rl).entries, ∃ r ∈ rl, e ∈ r.entries) ∧
    (Relation.intersect rl).entryIds.Nodup ∧
    (∀ s, s ∈ (Relation.intersect rl).tables_ ↔
       s ∈ (rl.headD Relation.createEmpty).tables_) ∧
    (∀ i, i ∈ (Relation.union rl).entryIds ↔ ∃ r ∈ rl, i ∈ r.entryIds) ∧
    (∀ e ∈ (Relation.union rl).entries, ∃ r ∈ rl, e ∈ r.entries) ∧
    (Relation.union rl).entryIds.Nodup ∧
    (∀ s, s ∈ (Relation.union rl).tables_ ↔
       s ∈ (rl.headD Relation.createEmpty).tables_) := by
  match rl with
  | [] => exact absurd rfl hne
  | r0 :: rest =>
    simp only [entryIds_def, List.headD_cons]
    refine ⟨fun i => intersect_id_mem r0 rest i,
      intersect_entries_sub r0 rest,
      intersect_ids_nodup r0 rest,
      fun s => ?_,
      fun i => union_id_mem r0 rest i,
      union_entries_sub r0 rest,
      union_ids_nodup r0 rest,
      fun s => ?_⟩
    · rw [intersect_tables]
      exact googSet_mem _ s
    · rw [union_tables]
      exact googSet_mem _ s

/-- Witness for C1 at a concrete input: two compatible relations over
table `T`. -/
theorem claim1_intersect_union_witness :
    (([sampleRel1, sampleRel2] : List Relation) ≠ []) ∧
    (∀ r ∈ [sampleRel1, sampleRel2],
      Relation.isCompatible
        (([sampleRel1, sampleRel2] : List Relation).headD
          Relation.createEmpty) r = true) ∧
    (∀ i, i ∈ (Relation.intersect [sampleRel1, sampleRel2]).entryIds ↔
       ∀ r ∈ [sampleRel1, sampleRel2], i ∈ r.entryIds) :=
  ⟨by simp, by decide,
    (claim1_intersect_union [sampleRel1, sampleRel2] (by simp) (by decide)).1⟩

/-- **C2.** `union([])` and `intersect([])` both return the shared empty
singleton, whose entry list and table set are empty; and on compatible
relations union and intersect are commutative, associative, and idempotent
when results are compared as sets of entry ids. -/
theorem claim2_set_laws :
    (Relation.union [] = Relation.createEmpty) ∧
    (Relation.intersect [] = Relation.createEmpty) ∧
    (Relation.createEmpty.entries = [] ∧ Relation.createEmpty.tables_ = []) ∧
    (∀ r1 r2 : Relation, Relation.isCompatible r1 r2 = true →
      ∀ i, i ∈ (Relation.union [r1, r2]).entryIds ↔
        i ∈ (Relation.union [r2, r1]).entryIds) ∧
    (∀ r1 r2 r3 : Relation, Relation.isCompatible r1 r2 = true →
      Relation.isCompatible r1 r3 = true →
      ∀ i, i ∈ (Relation.union [Relation.union [r1, r2], r3]).entryIds ↔
        i ∈ (Relation.union [r1, Relation.union [r2, r3]]).entryIds) ∧
    (∀ r : Relation,
      ∀ i, i ∈ (Relation.union [r, r]).entryIds ↔ i ∈ r.entryIds) ∧
    (∀ r1 r2 : Relation, Relation.isCompatible r1 r2 = true →
      ∀ i, i ∈ (Relation.intersect [r1, r2]).entryIds ↔
        i ∈ (Relation.intersect [r2, r1]).entryIds) ∧
    (∀ r1 r2 r3 : Relation, Relation.isCompatible r1 r2 = true →
      Relation.isCompatible r1 r3 = true →
      ∀ i,
        i ∈ (Relation.intersect
          [Relation.intersect [r1, r2], r3]).entryIds ↔
        i ∈ (Relation.intersect
          [r1, Relation.intersect [r2, r3]]).entryIds) ∧
    (∀ r : Relation,
      ∀ i, i ∈ (Relation.intersect [r, r]).entryIds ↔ i ∈ r.entryIds) := by
  refine ⟨rfl, rfl, ⟨rfl, rfl⟩, ?_, ?_, ?_, ?_, ?_, ?_⟩
  · intro r1 r2 _ i
    rw [union_pair_mem, union_pair_mem]
    tauto
  · intro r1 r2 r3 _ _ i
    rw [union_pair_mem, union_pair_mem, union_pair_mem, union_pair_mem]
    tauto
  · intro r i
    rw [union_pair_mem]
    tauto
  · intro r1 r2 _ i
    rw [intersect_pair_mem, intersect_pair_mem]
    tauto
  · intro r1 r2 r3 _ _ i
    rw [intersect_pair_mem, intersect_pair_mem, intersect_pair_mem,
      intersect_pair_mem]
    tauto
  · intro r i
    rw [intersect_pair_mem]
    tauto

/-- Witness for C2 at a concrete input: commutativity of union on two
compatible relations over table `T`. -/
theorem claim2_set_laws_witness :
    Relation.isCompatible sampleRel1 sampleRel2 = true ∧
    (∀ i, i ∈ (Relation.union [sampleRel1, sampleRel2]).entryIds ↔
       i ∈ (Relation.union [sampleRel2, sampleRel1]).entryIds) :=
  ⟨by decide,
    claim2_set_laws.2.2.2.1 sampleRel1 sampleRel2 (by decide)⟩

/-- **C3.** `isCompatible` returns true iff the source-table sets are
equal; the compatibility assertion inside union/intersect fails exactly
when some input's table set differs from the first input's, and cannot fail
when all inputs share one table set.  (The `Nodup` hypotheses record the
`goog.structs.Set` invariant that `tables_` is deduplicated, which the
`Relation` constructor establishes.) -/
theorem claim3_compatibility :
    (∀ r1 r2 : Relation, r1.tables_.Nodup → r2.tables_.Nodup →
      (Relation.isCompatible r1 r2 = true ↔
        ∀ s, s ∈ r1.tables_ ↔ s ∈ r2.tables_)) ∧
    (∀ (r0 : Relation) (rest : List Relation),
      r0.tables_.Nodup → (∀ r ∈ rest, r.tables_.Nodup) →
      (Relation.setOpAssertOk (r0 :: rest) = false ↔
        ∃ r ∈ r0 :: rest, ¬(∀ s, s ∈ r.tables_ ↔ s ∈ r0.tables_))) ∧
    (∀ (r0 : Relation) (rest : List Relation),
      r0.tables_.Nodup → (∀ r ∈ rest, r.tables_.Nodup) →
      (∀ r ∈ r0 :: rest, ∀ s, s ∈ r.tables_ ↔ s ∈ r0.tables_) →
      Relation.setOpAssertOk (r0 :: rest) = true) := by
  have hcompat : ∀ r1 r2 : Relation, r1.tables_.Nodup → r2.tables_.Nodup →
      (Relation.isCompatible r1 r2 = true ↔
        ∀ s, s ∈ r1.tables_ ↔ s ∈ r2.tables_) := by
    intro r1 r2 h1 h2
    exact googSetEquals_iff r1.tables_ r2.tables_ h1 h2
  have hok : ∀ (r0 : Relation) (rest : List Relation),
      Relation.setOpAssertOk (r0 :: rest) =
        (r0 :: rest).all (fun r => Relation.isCompatible r0 r) :=
    fun _ _ => rfl
  refine ⟨hcompat, ?_, ?_⟩
  · intro r0 rest h0 hrest
    have hiff : ∀ r ∈ r0 :: rest,
        (Relation.isCompatible r0 r = true ↔
          ∀ s, s ∈ r0.tables_ ↔ s ∈ r.tables_) := by
      intro r hr
      rcases List.mem_cons.mp hr with h' | hr'
      · rw [h']
        exact hcompat r0 r0 h0 h0
      · exact hcompat r0 r h0 (hrest r hr')
    constructor
    · intro hfalse
      have hnall : ¬((r0 :: rest).all
          (fun r => Relation.isCompatible r0 r) = true) := by
        rw [← hok r0 rest, hfalse]
        simp
      rw [List.all_eq_true] at hnall
      push_neg at hnall
      obtain ⟨r, hr, hnc⟩ := hnall
      refine ⟨r, hr, fun hall => hnc ?_⟩
      rw [hiff r hr]
      intro s
      exact (hall s).symm
    · rintro ⟨r, hr, hne⟩
      cases hb : Relation.setOpAssertOk (r0 :: rest) with
      | false => rfl
      | true =>
        exfalso
        rw [hok r0 rest, List.all_eq_true] at hb
        have hmem := (hiff r hr).mp (hb r hr)
        exact hne (fun s => (hmem s).symm)
  · intro r0 rest h0 hrest hall
    rw [hok r0 rest, List.all_eq_true]
    intro r hr
    have hiff : Relation.isCompatible r0 r = true ↔
        ∀ s, s ∈ r0.tables_ ↔ s ∈ r.tables_ := by
      rcases List.mem_cons.mp hr with h' | hr'
      · rw [h']
        exact hcompat r0 r0 h0 h0
      · exact hcompat r0 r h0 (hrest r hr')
    rw [hiff]
    intro s
    exact (hall r hr s).symm

/-- Witness for C3 at a concrete input: two relations over table `T`. -/
theorem claim3_compatibility_witness :
    sampleRel1.tables_.Nodup ∧ sampleRel2.tables_.Nodup ∧
    (Relation.isCompatible sampleRel1 sampleRel2 = true ↔
      ∀ s, s ∈ sampleRel1.tables_ ↔ s ∈ sampleRel2.tables_) :=
  ⟨by decide, by decide,
    claim3_compatibility.1 sampleRel1 sampleRel2 (by decide) (by decide)⟩

/-! ## Entry construction: fromRows and the id counter -/

theorem createEntries_cons (r : Row) (rest : List Row) (pfx : Bool)
    (st : Nat) :
    createEntries (r :: rest) pfx st =
      ((⟨r, st, pfx⟩ : RelationEntry) :: (createEntries rest pfx (st + 1)).1,
       (createEntries rest pfx (st + 1)).2) := rfl

theorem createEntries_rows : ∀ (rows : List Row) (pfx : Bool) (st : Nat),
    (createEntries rows pfx st).1.map (·.row) = rows
  | [], _, _ => rfl
  | r :: rest, pfx, st => by
    rw [createEntries_cons]
    simp only [List.map_cons]
    rw [createEntries_rows rest pfx (st + 1)]

theorem createEntries_len (rows : List Row) (pfx : Bool) (st : Nat) :
    (createEntries rows pfx st).1.length = rows.length := by
  have h := congrArg List.length (createEntries_rows rows pfx st)
  simpa using h

theorem createEntries_ids : ∀ (rows : List Row) (pfx : Bool) (st : Nat),
    (createEntries rows pfx st).1.map (·.id) = List.range' st rows.length
  | [], _, _ => rfl
  | r :: rest, pfx, st => by
    rw [createEntries_cons]
    simp only [List.map_cons, List.length_cons]
    rw [createEntries_ids rest pfx (st + 1), List.range'_succ]

theorem createEntries_pfx : ∀ (rows : List Row) (pfx : Bool) (st : Nat),
    ∀ e ∈ (createEntries rows pfx st).1, e.isPrefixApplied = pfx
  | [], _, _ => by simp [createEntries]
  | r :: rest, pfx, st => by
    rw [createEntries_cons]
    intro e he
    rcases List.mem_cons.mp he with h' | h'
    · rw [h']
    · exact createEntries_pfx rest pfx (st + 1) e h'

theorem createEntries_st : ∀ (rows : List Row) (pfx : Bool) (st : Nat),
    (createEntries rows pfx st).2 = st + rows.length
  | [], _, _ => rfl
  | r :: rest, pfx, st => by
    rw [createEntries_cons]
    simp only [List.length_cons]
    rw [createEntries_st rest pfx (st + 1)]
    omega

theorem fromRows_unfold (rows : List Row) (tables : List String) (st : Nat) :
    Relation.fromRows rows tables st =
      (Relation.mkRel
        (createEntries rows (decide (tables.length > 1)) st).1 tables,
       (createEntries rows (decide (tables.length > 1)) st).2) := rfl

/-- **C5.** `Relation.fromRows` wraps each row in a fresh entry (one per
row, preserving order, with consecutive freshly allocated ids), whose
`prefixApplied` flag is true iff the table list has more than one element,
and returns a relation over exactly those tables. -/
theorem claim5_fromRows (rows : List Row) (tables : List String) (st : Nat) :
    ((Relation.fromRows rows tables st).1.entries.map (·.row) = rows) ∧
    (∀ e ∈ (Relation.fromRows rows tables st).1.entries,
      (e.isPrefixApplied = true ↔ tables.length > 1)) ∧
    ((Relation.fromRows rows tables st).1.entries.map (·.id) =
      List.range' st rows.length) ∧
    ((Relation.fromRows rows tables st).2 = st + rows.length) ∧
    (∀ s, s ∈ (Relation.fromRows rows tables st).1.tables_ ↔ s ∈ tables) := by
  rw [fromRows_unfold]
  refine ⟨createEntries_rows rows _ st, ?_, createEntries_ids rows _ st,
    createEntries_st rows _ st, ?_⟩
  · intro e he
    rw [createEntries_pfx rows _ st e he]
    simp
  · intro s
    exact googSet_mem tables s

theorem runOp_ids (op : ConsOp) (st : Nat) :
    (runOp op st).1.map (·.id) = List.range' st (runOp op st).1.length ∧
    (runOp op st).2 = st + (runOp op st).1.length := by
  cases op with
  | create row pfx =>
    refine ⟨?_, rfl⟩
    rw [show (runOp (ConsOp.create row pfx) st).1 =
      [(⟨row, st, pfx⟩ : RelationEntry)] from rfl]
    rfl
  | fromRows rows tables =>
    have h1 : (runOp (ConsOp.fromRows rows tables) st).1 =
        (createEntries rows (decide (tables.length > 1)) st).1 := rfl
    have h2 : (runOp (ConsOp.fromRows rows tables) st).2 =
        (createEntries rows (decide (tables.length > 1)) st).2 := rfl
    rw [h1, h2, createEntries_ids, createEntries_st, createEntries_len]
    exact ⟨rfl, rfl⟩
  | combine l lt r rt =>
    refine ⟨?_, rfl⟩
    rfl

theorem runTrace_cons (op : ConsOp) (rest : List ConsOp) (st : Nat) :
    runTrace (op :: rest) st =
      ((runOp op st).1 ++ (runTrace rest (runOp op st).2).1,
       (runTrace rest (runOp op st).2).2) := rfl

theorem runTrace_ids : ∀ (tr : List ConsOp) (st : Nat),
    (runTrace tr st).1.map (·.id) =
      List.range' st (runTrace tr st).1.length ∧
    (runTrace tr st).2 = st + (runTrace tr st).1.length
  | [], st => ⟨rfl, rfl⟩
  | op :: rest, st => by
    obtain ⟨h1, h2⟩ := runOp_ids op st
    obtain ⟨h3, h4⟩ := runTrace_ids rest (runOp op st).2
    rw [runTrace_cons]
    simp only [List.map_append, List.length_append]
    rw [h1, h3]
    rw [h2] at h4 ⊢
    constructor
    · have happ := List.range'_append st (runOp op st).1.length
        (runTrace rest (st + (runOp op st).1.length)).1.length 1
      simp only [Nat.one_mul] at happ
      rw [happ]
      rw [Nat.add_comm
        ((runTrace rest (st + (runOp op st).1.length)).1.length)
        ((runOp op st).1.length)]
    · omega

/-- **C7.** Entry ids are allocated strictly increasing within a process:
over any sequence of entry constructions (direct, via `fromRows`, or via
`combineEntries`), each later-constructed entry's id is strictly greater
than every earlier one's, so all constructed entry ids are distinct. -/
theorem claim7_entry_ids_increasing (tr : List ConsOp) (st : Nat) :
    ((runTrace tr st).1.map (·.id)).Pairwise (· < ·) ∧
    ((runTrace tr st).1.map (·.id)).Pairwise (· ≠ ·) := by
  obtain ⟨h1, _⟩ := runTrace_ids tr st
  rw [h1]
  exact ⟨List.pairwise_lt_range' _ _,
    (List.pairwise_lt_range' _ _).imp (fun h => Nat.ne_of_lt h)⟩

/-! ## Lemmas about the JS object model -/

theorem objSet_nil (k : String) (v : JsVal) : objSet [] k v = [(k, v)] :=
  rfl

theorem objSet_cons_eq (k : String) (v' v : JsVal)
    (rest : List (String × JsVal)) :
    objSet ((k, v') :: rest) k v = (k, v) :: rest := by
  simp [objSet]

theorem objSet_cons_ne (k' k : String) (v' v : JsVal)
    (rest : List (String × JsVal)) (h : k' ≠ k) :
    objSet ((k', v') :: rest) k v = (k', v') :: objSet rest k v := by
  simp [objSet, h]

theorem objGet_cons_self (k : String) (v : JsVal)
    (rest : List (String × JsVal)) :
    objGet ((k, v) :: rest) k = some v := by
  simp [objGet]

theorem objGet_cons_ne (k0 k : String) (v : JsVal)
    (rest : List (String × JsVal)) (h : k0 ≠ k) :
    objGet ((k0, v) :: rest) k = objGet rest k := by
  simp [objGet, h]

theorem objSet_get_self : ∀ (o : Obj) (k : String) (v : JsVal),
    objGet (objSet o k v) k = some v
  | [], k, v => by
    rw [objSet_nil]
    exact objGet_cons_self k v []
  | (k', v') :: rest, k, v => by
    by_cases h : k' = k
    · subst h
      rw [objSet_cons_eq]
      exact objGet_cons_self k' v rest
    · rw [objSet_cons_ne k' k v' v rest h, objGet_cons_ne k' k v' _ h]
      exact objSet_get_self rest k v

theorem objSet_get_ne : ∀ (o : Obj) (k k' : String) (v : JsVal),
    k' ≠ k → objGet (objSet o k v) k' = objGet o k'
  | [], k, k', v, h => by
    rw [objSet_nil, objGet_cons_ne k k' v [] (fun hh => h hh.symm)]
  | (k0, v0) :: rest, k, k', v, h => by
    by_cases h0 : k0 = k
    · subst h0
      rw [objSet_cons_eq]
      rw [objGet_cons_ne k0 k' v rest (fun hh => h hh.symm)]
      rw [objGet_cons_ne k0 k' v0 rest (fun hh => h hh.symm)]
    · rw [objSet_cons_ne k0 k v0 v rest h0]
      by_cases h1 : k0 = k'
      · subst h1
        rw [objGet_cons_self, objGet_cons_self]
      · rw [objGet_cons_ne k0 k' v0 _ h1, objGet_cons_ne k0 k' v0 rest h1]
        exact objSet_get_ne rest k k' v h

theorem objSet_keys_mem : ∀ (o : Obj) (k k' : String) (v : JsVal),
    (k' ∈ objKeys (objSet o k v) ↔ k' = k ∨ k' ∈ objKeys o)
  | [], k, k', v => by simp [objSet_nil, objKeys]
  | (k0, v0) :: rest, k, k', v => by
    by_cases h0 : k0 = k
    · subst h0
      rw [objSet_cons_eq]
      simp only [objKeys, List.map_cons, List.mem_cons]
      tauto
    · rw [objSet_cons_ne k0 k v0 v rest h0]
      simp only [objKeys, List.map_cons, List.mem_cons]
      have hrec := objSet_keys_mem rest k k' v
      simp only [objKeys] at hrec
      rw [hrec]
      tauto

theorem pairFold_get_not_mem :
    ∀ (pairs : List (String × JsVal)) (res : Obj) (k : String),
    k ∉ pairs.map Prod.fst →
    objGet (pairs.foldl (fun res kv => objSet res kv.1 kv.2) res) k =
      objGet res k
  | [], res, k, _ => rfl
  | (k0, v0) :: rest, res, k, h => by
    simp only [List.map_cons, List.mem_cons, not_or] at h
    simp only [List.foldl_cons]
    rw [pairFold_get_not_mem rest _ k h.2]
    exact objSet_get_ne res k0 k v0 h.1

theorem pairFold_get_mem :
    ∀ (pairs : List (String × JsVal)) (res : Obj) (k : String) (v : JsVal),
    (pairs.map Prod.fst).Nodup → (k, v) ∈ pairs →
    objGet (pairs.foldl (fun res kv => objSet res kv.1 kv.2) res) k = some v
  | [], res, k, v, _, hin => by simp at hin
  | (k0, v0) :: rest, res, k, v, hnd, hin => by
    simp only [List.map_cons, List.nodup_cons] at hnd
    simp only [List.foldl_cons]
    rcases List.mem_cons.mp hin with h' | h'
    · have hk : k0 = k := (congrArg Prod.fst h').symm
      have hv : v0 = v := (congrArg Prod.snd h').symm
      subst hk
      subst hv
      have hnotin : k0 ∉ rest.map Prod.fst := hnd.1
      rw [pairFold_get_not_mem rest _ k0 hnotin]
      exact objSet_get_self res k0 v0
    · exact pairFold_get_mem rest _ k v hnd.2 h'

theorem pairFold_keys :
    ∀ (pairs : List (String × JsVal)) (res : Obj) (k : String),
    k ∈ objKeys (pairs.foldl (fun res kv => objSet res kv.1 kv.2) res) →
      k ∈ objKeys res ∨ k ∈ pairs.map Prod.fst
  | [], res, k, h => Or.inl h
  | (k0, v0) :: rest, res, k, h => by
    simp only [List.foldl_cons] at h
    rcases pairFold_keys rest _ k h with h1 | h1
    · rcases (objSet_keys_mem res k0 k v0).mp h1 with rfl | h2
      · exact Or.inr (by simp)
      · exact Or.inl h2
    · exact Or.inr (by simp [h1])

/-! ## Lemmas about mergeEntry (combineEntries) -/

theorem mergeEntry_get_pfx (res : Obj) (entry : RelationEntry)
    (tbls : List String) (hp : entry.isPrefixApplied = true)
    (hk : (objKeys entry.row.payload).Nodup) (k : String) (v : JsVal)
    (hin : (k, v) ∈ entry.row.payload) :
    objGet (mergeEntry res entry tbls) k = some v := by
  unfold mergeEntry
  rw [hp]
  simp only [if_true]
  exact pairFold_get_mem entry.row.payload res k v hk hin

theorem mergeEntry_get_nonpfx (res : Obj) (entry : RelationEntry)
    (tbls : List String) (hp : entry.isPrefixApplied = false) :
    objGet (mergeEntry res entry tbls) (tbls.headD "") =
      some (JsVal.obj entry.row.payload) := by
  unfold mergeEntry
  rw [hp]
  simp only [Bool.false_eq_true, if_false]
  exact objSet_get_self res (tbls.headD "") (JsVal.obj entry.row.payload)

theorem mergeEntry_get_other (res : Obj) (entry : RelationEntry)
    (tbls : List String) (k : String)
    (hk : k ∉ contribKeys entry tbls) :
    objGet (mergeEntry res entry tbls) k = objGet res k := by
  unfold mergeEntry
  unfold contribKeys at hk
  cases hp : entry.isPrefixApplied with
  | true =>
    rw [hp] at hk
    simp only [if_true]
    exact pairFold_get_not_mem entry.row.payload res k hk
  | false =>
    rw [hp] at hk
    simp only [Bool.false_eq_true, if_false] at hk ⊢
    have hne : k ≠ tbls.headD "" := by
      intro hh
      exact hk (by simp [hh])
    exact objSet_get_ne res (tbls.headD "") k
      (JsVal.obj entry.row.payload) hne

theorem mergeEntry_keys (res : Obj) (entry : RelationEntry)
    (tbls : List String) (k : String) :
    k ∈ objKeys (mergeEntry res entry tbls) →
      k ∈ objKeys res ∨ k ∈ contribKeys entry tbls := by
  unfold mergeEntry contribKeys
  cases hp : entry.isPrefixApplied with
  | true =>
    simp only [if_true]
    intro h
    exact pairFold_keys entry.row.payload res k h
  | false =>
    simp only [Bool.false_eq_true, if_false]
    intro h
    rcases (objSet_keys_mem res (tbls.headD "") k
        (JsVal.obj entry.row.payload)).mp h with rfl | h2
    · exact Or.inr (by simp)
    · exact Or.inl h2

/-- **C4** (code bug): on a non-prefixed entry with empty payload and a
column named `c` carrying alias `a`, `setField` writes the value to the
flat alias slot (first conjunct: the payload becomes `{a: 1}`), but a
subsequent `getField` on the very same column yields `undefined`: the
source's `getField` never consults the alias, contradicting the claim and
§9 of the spec, which mandates that reads consult aliases before
prefixes. -/
theorem claim4_alias_read_bug :
    (RelationEntry.setField plainEntry aliasColumn (JsVal.num 1)).map
        (fun entry => objGet entry.row.payload "a") =
      some (some (JsVal.num 1)) ∧
    (RelationEntry.setField plainEntry aliasColumn (JsVal.num 1)).map
        (fun entry => RelationEntry.getField entry aliasColumn) =
      some none := by
  exact ⟨rfl, rfl⟩

/-- **C10.** On a prefix-applied entry whose payload lacks the column's
table slot, `setField` on a non-aliased column creates the table container
and stores the value under the column name, and a subsequent `getField`
returns the value just set. -/
theorem claim10_setField_creates_container (e : RelationEntry) (c : Column)
    (v : JsVal) (hpfx : e.isPrefixApplied = true)
    (halias : c.getAlias = none)
    (hmiss : objGet e.row.payload c.tableName = none) :
    ∃ e', RelationEntry.setField e c v = some e' ∧
      objGet e'.row.payload c.tableName =
        some (JsVal.obj [(c.name, v)]) ∧
      RelationEntry.getField e' c = some v := by
  obtain ⟨⟨rowid, payload⟩, eid, pfx⟩ := e
  obtain ⟨nm, tbl, al⟩ := c
  simp only at hpfx halias hmiss
  subst hpfx
  subst halias
  refine ⟨⟨⟨rowid, objSet payload tbl (JsVal.obj (objSet [] nm v))⟩, eid,
    true⟩, ?_, ?_, ?_⟩
  · unfold RelationEntry.setField
    simp [hmiss]
  · simp only
    rw [objSet_get_self]
    rfl
  · unfold RelationEntry.getField
    simp only [if_true]
    rw [objSet_get_self]
    rw [objSet_nil]
    exact objGet_cons_self nm v []

/-- Witness for C10 at a concrete input: a prefix-applied entry with an
empty payload and the plain column `T.c`. -/
theorem claim10_setField_creates_container_witness :
    pfxEntry.isPrefixApplied = true ∧ plainColumn.getAlias = none ∧
    objGet pfxEntry.row.payload plainColumn.tableName = none ∧
    (∃ e', RelationEntry.setField pfxEntry plainColumn (JsVal.num 2) =
        some e' ∧
      objGet e'.row.payload plainColumn.tableName =
        some (JsVal.obj [(plainColumn.name, JsVal.num 2)]) ∧
      RelationEntry.getField e' plainColumn = some (JsVal.num 2)) :=
  ⟨rfl, rfl, rfl,
    claim10_setField_creates_container pfxEntry plainColumn (JsVal.num 2)
      rfl rfl rfl⟩

/-- **C6.** `combineEntries` produces a prefix-applied entry (with a fresh
entry id) whose payload is a table-keyed map carrying both sides: a
prefix-applied side has each of its prefix slots copied verbatim, a
non-prefixed side has its whole payload inserted under its single
source-table name, no other key appears, and the synthetic row's id is
`DUMMY_ID`.  The `Nodup` hypotheses record that JS objects cannot carry
duplicate property names; the disjointness hypothesis states that the two
sides contribute distinct table names. -/
theorem claim6_combineEntries (le : RelationEntry) (lt : List String)
    (re : RelationEntry) (rt : List String) (st : Nat)
    (hlk : (objKeys le.row.payload).Nodup)
    (hrk : (objKeys re.row.payload).Nodup)
    (hdisj : ∀ k ∈ contribKeys le lt, k ∉ contribKeys re rt) :
    ((RelationEntry.combineEntries le lt re rt st).1.isPrefixApplied =
      true) ∧
    ((RelationEntry.combineEntries le lt re rt st).1.row.id = DUMMY_ID) ∧
    ((RelationEntry.combineEntries le lt re rt st).1.id = st) ∧
    ((RelationEntry.combineEntries le lt re rt st).2 = st + 1) ∧
    (le.isPrefixApplied = true → ∀ k v, (k, v) ∈ le.row.payload →
      objGet (RelationEntry.combineEntries le lt re rt st).1.row.payload k =
        some v) ∧
    (le.isPrefixApplied = false →
      objGet (RelationEntry.combineEntries le lt re rt st).1.row.payload
          (lt.headD "") =
        some (JsVal.obj le.row.payload)) ∧
    (re.isPrefixApplied = true → ∀ k v, (k, v) ∈ re.row.payload →
      objGet (RelationEntry.combineEntries le lt re rt st).1.row.payload k =
        some v) ∧
    (re.isPrefixApplied = false →
      objGet (RelationEntry.combineEntries le lt re rt st).1.row.payload
          (rt.headD "") =
        some (JsVal.obj re.row.payload)) ∧
    (∀ k, k ∈ objKeys
        (RelationEntry.combineEntries le lt re rt st).1.row.payload →
      k ∈ contribKeys le lt ∨ k ∈ contribKeys re rt) := by
  have hpay : (RelationEntry.combineEntries le lt re rt st).1.row.payload =
      mergeEntry (mergeEntry [] le lt) re rt := rfl
  refine ⟨rfl, rfl, rfl, rfl, ?_, ?_, ?_, ?_, ?_⟩
  · intro hp k v hin
    rw [hpay]
    have hkmem : k ∈ contribKeys le lt := by
      unfold contribKeys
      rw [hp]
      simp only [if_true, objKeys]
      exact List.mem_map.mpr ⟨(k, v), hin, rfl⟩
    rw [mergeEntry_get_other _ re rt k (hdisj k hkmem)]
    exact mergeEntry_get_pfx [] le lt hp hlk k v hin
  · intro hp
    rw [hpay]
    have hkmem : (lt.headD "") ∈ contribKeys le lt := by
      unfold contribKeys
      rw [hp]
      simp
    rw [mergeEntry_get_other _ re rt _ (hdisj _ hkmem)]
    exact mergeEntry_get_nonpfx [] le lt hp
  · intro hp k v hin
    rw [hpay]
    exact mergeEntry_get_pfx _ re rt hp hrk k v hin
  · intro hp
    rw [hpay]
    exact mergeEntry_get_nonpfx _ re rt hp
  · intro k hk
    rw [hpay] at hk
    rcases mergeEntry_keys _ re rt k hk with h1 | h1
    · rcases mergeEntry_keys [] le lt k h1 with h2 | h2
      · simp [objKeys] at h2
      · exact Or.inl h2
    · exact Or.inr h1

/-- Witness for C6 at a concrete input: two non-prefixed single-table
entries over tables `L` and `R`. -/
theorem claim6_combineEntries_witness :
    (objKeys leftSample.row.payload).Nodup ∧
    (objKeys rightSample.row.payload).Nodup ∧
    (∀ k ∈ contribKeys leftSample ["L"], k ∉ contribKeys rightSample ["R"]) ∧
    ((RelationEntry.combineEntries leftSample ["L"] rightSample ["R"]
        0).1.isPrefixApplied = true) ∧
    ((RelationEntry.combineEntries leftSample ["L"] rightSample ["R"]
        0).1.row.id = DUMMY_ID) :=
  ⟨by decide, by decide, by decide,
    (claim6_combineEntries leftSample ["L"] rightSample ["R"] 0
      (by decide) (by decide) (by decide)).1,
    (claim6_combineEntries leftSample ["L"] rightSample ["R"] 0
      (by decide) (by decide) (by decide)).2.1⟩

/-- Witness for C5 at a concrete input: one row wrapped over two tables,
yielding a prefix-applied entry. -/
theorem claim5_fromRows_witness :
    ((⟨sampleRow 1, 0, true⟩ : RelationEntry) ∈
      (Relation.fromRows [sampleRow 1] ["A", "B"] 0).1.entries) ∧
    ((⟨sampleRow 1, 0, true⟩ : RelationEntry).isPrefixApplied = true ↔
      (["A", "B"] : List String).length > 1) :=
  ⟨List.mem_cons_self _ _,
    (claim5_fromRows [sampleRow 1] ["A", "B"] 0).2.1
      ⟨sampleRow 1, 0, true⟩ (List.mem_cons_self _ _)⟩

/-! ## The insert builder (modelled from the spec) -/

/-- **C8.** For the insert builder: `exec()` with no prior `into()` fails
with `SYNTAX`; `exec()` with no prior `values()` fails with `SYNTAX`;
`exec()` with `allowReplace` on a table without a primary key fails with
`CONSTRAINT`; and a second `into()` or a second `values()` fails with
`SYNTAX` immediately at builder-call time. -/
theorem claim8_insert_builder :
    (∀ b : InsertBuilder, b.intoTable = none →
      ∃ msg, b.exec = Except.error ⟨ExceptionType.SYNTAX, msg⟩) ∧
    (∀ (b : InsertBuilder) (t : Table), b.intoTable = some t →
      b.valuesList = none →
      ∃ msg, b.exec = Except.error ⟨ExceptionType.SYNTAX, msg⟩) ∧
    (∀ (b : InsertBuilder) (t : Table) (rows : List Row),
      b.allowReplace = true → b.intoTable = some t →
      t.hasPrimaryKey = false → b.valuesList = some rows →
      ∃ msg, b.exec = Except.error ⟨ExceptionType.CONSTRAINT, msg⟩) ∧
    (∀ (b : InsertBuilder) (t t' : Table), b.intoTable = some t →
      ∃ msg, b.into t' = Except.error ⟨ExceptionType.SYNTAX, msg⟩) ∧
    (∀ (b : InsertBuilder) (rows rows' : List Row),
      b.valuesList = some rows →
      ∃ msg, b.values rows' =
        Except.error ⟨ExceptionType.SYNTAX, msg⟩) := by
  refine ⟨?_, ?_, ?_, ?_, ?_⟩
  · rintro ⟨ar, it, vl⟩ h
    simp only at h
    subst h
    exact ⟨_, rfl⟩
  · rintro ⟨ar, it, vl⟩ t h1 h2
    simp only at h1 h2
    subst h1
    subst h2
    exact ⟨_, rfl⟩
  · rintro ⟨ar, it, vl⟩ ⟨tn, hpk⟩ rows h1 h2 h3 h4
    simp only at h1 h2 h3 h4
    subst h1
    subst h2
    subst h3
    subst h4
    exact ⟨_, rfl⟩
  · rintro ⟨ar, it, vl⟩ t t' h
    simp only at h
    subst h
    exact ⟨_, rfl⟩
  · rintro ⟨ar, it, vl⟩ rows rows' h
    simp only at h
    subst h
    exact ⟨_, rfl⟩

/-- Witness for C8 at concrete inputs: a fresh builder missing `into()`,
and an `allowReplace` builder targeting the primary-key-less
`JobHistory`. -/
theorem claim8_insert_builder_witness :
    ((InsertBuilder.create false).intoTable = none) ∧
    (∃ msg, (InsertBuilder.create false).exec =
      Except.error ⟨ExceptionType.SYNTAX, msg⟩) ∧
    (∃ msg,
      (InsertBuilder.mk true (some jobHistoryTable)
        (some [⟨1, []⟩])).exec =
        Except.error ⟨ExceptionType.CONSTRAINT, msg⟩) :=
  ⟨rfl,
    claim8_insert_builder.1 (InsertBuilder.create false) rfl,
    claim8_insert_builder.2.2.1
      (InsertBuilder.mk true (some jobHistoryTable) (some [⟨1, []⟩]))
      jobHistoryTable [⟨1, []⟩] rfl rfl rfl rfl⟩

/-! ## The service registry -/

theorem svcSet_get_self {α : Type} : ∀ (l : List (String × α)) (k : String)
    (v : α), svcGet (svcSet l k v) k = some v
  | [], k, v => by simp [svcSet, svcGet]
  | (k', v') :: rest, k, v => by
    by_cases h : k' = k
    · subst h
      simp [svcSet, svcGet]
    · simp only [svcSet, if_neg h, svcGet]
      exact svcSet_get_self rest k v

theorem svcSet_get_ne {α : Type} : ∀ (l : List (String × α)) (k k' : String)
    (v : α), k' ≠ k → svcGet (svcSet l k v) k' = svcGet l k'
  | [], k, k', v, h => by
    simp only [svcSet, svcGet]
    rw [if_neg (fun hh => h hh.symm)]
  | (k0, v0) :: rest, k, k', v, h => by
    by_cases h0 : k0 = k
    · subst h0
      simp only [svcSet, if_pos rfl, svcGet]
      rw [if_neg (fun hh => h hh.symm), if_neg (fun hh => h hh.symm)]
    · simp only [svcSet, if_neg h0, svcGet]
      by_cases h1 : k0 = k'
      · rw [if_pos h1, if_pos h1]
      · rw [if_neg h1, if_neg h1]
        exact svcSet_get_ne rest k k' v h

theorem svcGet_none_iff {α : Type} : ∀ (l : List (String × α)) (k : String),
    (svcGet l k = none ↔ l.any (fun p => decide (p.1 = k)) = false)
  | [], k => by simp [svcGet]
  | (k', v') :: rest, k => by
    by_cases h : k' = k
    · subst h
      simp [svcGet]
    · simp only [svcGet, if_neg h, List.any_cons, Bool.or_eq_false_iff]
      rw [svcGet_none_iff rest k]
      simp [h]

/-- **C9.** `registerService` returns the service it registered and makes
`isRegistered` true; `getService` returns the service most recently
registered under the id (later registrations shadow earlier ones, other
ids are untouched), and throws `NOT_FOUND` carrying the id exactly when no
service is registered under it. -/
theorem claim9_global_services {α : Type} (g : Global α)
    (serviceId : String) (service : α) :
    ((g.registerService serviceId service).1 = service) ∧
    ((g.registerService serviceId service).2.isRegistered serviceId =
      true) ∧
    ((g.registerService serviceId service).2.getService serviceId =
      Except.ok service) ∧
    (∀ id2, id2 ≠ serviceId →
      (g.registerService serviceId service).2.getService id2 =
        g.getService id2) ∧
    (g.getService serviceId =
        Except.error ⟨ExceptionType.NOT_FOUND, serviceId⟩ ↔
      g.isRegistered serviceId = false) := by
  refine ⟨rfl, ?_, ?_, ?_, ?_⟩
  · have h := svcSet_get_self g.services serviceId service
    unfold Global.isRegistered Global.registerService
    simp only
    rw [← Bool.not_eq_false]
    intro hfalse
    rw [← svcGet_none_iff] at hfalse
    rw [h] at hfalse
    exact Option.noConfusion hfalse
  · unfold Global.getService Global.registerService
    simp only
    rw [svcSet_get_self g.services serviceId service]
  · intro id2 hne
    unfold Global.getService Global.registerService
    simp only
    rw [svcSet_get_ne g.services serviceId id2 service hne]
  · unfold Global.getService Global.isRegistered
    cases hsv : svcGet g.services serviceId with
    | none =>
      simp only
      constructor
      · intro _
        rw [← Bool.not_eq_true]
        intro htrue
        rw [← Bool.not_eq_false, ← svcGet_none_iff] at htrue
        exact htrue hsv
      · intro _
        trivial
    | some s =>
      simp only
      constructor
      · intro hcontr
        exact Except.noConfusion hcontr
      · intro hfalse
        rw [← svcGet_none_iff] at hfalse
        rw [hsv] at hfalse
        exact Option.noConfusion hfalse

/-- Witness for C9 at a concrete input: registering service `cache` as the
number 7 in an empty registry. -/
theorem claim9_global_services_witness :
    (((Global.mk ([] : List (String × Nat))).registerService "cache" 7).1 =
      7) ∧
    (((Global.mk ([] : List (String × Nat))).registerService "cache"
      7).2.getService "cache" = Except.ok 7) ∧
    ((Global.mk ([] : List (String × Nat))).getService "cache" =
        Except.error ⟨ExceptionType.NOT_FOUND, "cache"⟩ ↔
      (Global.mk ([] : List (String × Nat))).isRegistered "cache" =
        false) :=
  ⟨(claim9_global_services (Global.mk ([] : List (String × Nat)))
      "cache" 7).1,
    (claim9_global_services (Global.mk ([] : List (String × Nat)))
      "cache" 7).2.2.1,
    (claim9_global_services (Global.mk ([] : List (String × Nat)))
      "cache" 7).2.2.2.2⟩

end Lovefield
